import Mathlib

/-!
Verification development for the chrono-atlas backend core: the per-day event
aggregation pipeline (src/backend/src/services/events.py), the Wikipedia
"on this day" event source (src/backend/src/services/wikipedia.py), and the
multi-stage place-resolution pipeline with its curated gazetteer and
rate-limited Nominatim geocoder (src/backend/src/services/geocoding.py).

The Python code is shallowly embedded: pure functions become Lean functions,
module-level mutable state becomes explicit state passing, network calls are
driven by explicit outcome/environment parameters, Python float becomes Rat
(no claim depends on rounding), and code that can raise returns Except.
-/

namespace ChronoAtlas

/-! Python string helpers.  These model the exact CPython operations used by
the source (slicing by code point, ASCII-relevant lower/strip/substring);
they are written structurally over the character list so that the kernel can
evaluate them on concrete inputs. -/

/-- Model of Python s[:n] (slice by code point). -/
def pyTake (n : Nat) (s : String) : String := ⟨s.data.take n⟩

/-- Model of Python str.lower (code-point-wise lowering). -/
def pyLower (s : String) : String := ⟨s.data.map Char.toLower⟩

/-- Model of Python str.strip (drop leading and trailing whitespace). -/
def pyStrip (s : String) : String :=
  ⟨((s.data.dropWhile Char.isWhitespace).reverse.dropWhile Char.isWhitespace).reverse⟩

/-- Substring test over character lists, used to model the Python in operator. -/
def listContainsSub (n : List Char) : List Char → Bool
  | [] => n.isEmpty
  | c :: t => n.isPrefixOf (c :: t) || listContainsSub n t

/-- Model of Python needle in hay for strings. -/
def strContainsSub (hay needle : String) : Bool := listContainsSub needle.data hay.data

/-! Python dict as an association list: writes append, reads take the latest
binding, which models the overwrite semantics of dict assignment. -/

/-- Latest-binding lookup, modelling Python dict read. -/
def dget {α : Type} (d : List (String × α)) (k : String) : Option α :=
  d.reverse.lookup k

/-- Model of Python dict assignment d[k] = v. -/
def dset {α : Type} (d : List (String × α)) (k : String) (v : α) : List (String × α) :=
  d ++ [(k, v)]

/-! Data model (src/backend/src/models/event.py).  The constant type field
"Point" of GeoLocation is omitted; coordinates are (lng, lat) as in the
source comment. -/

inductive Confidence
  | high | medium | low | estimated
deriving DecidableEq, Repr

inductive Geocoder
  | nominatim | azure_maps | ai_inferred | curated
deriving DecidableEq, Repr

structure GeoLocation where
  coordinates : Rat × Rat
  confidence : Confidence
  geocoder : Geocoder
  place_name : String
  modern_equivalent : Option String := none
deriving DecidableEq, Repr

structure EventSrc where
  type : String
  source_url : Option String := none
deriving DecidableEq, Repr

structure HistoricalEvent where
  id : String
  iso_date : String
  source : EventSrc
  title : String
  description : String
  year : Int
  categories : List String
  location : GeoLocation
  media : Option String := none
  created_at : String
deriving DecidableEq, Repr

/-! Event source (src/backend/src/services/wikipedia.py). -/

structure WikipediaEvent where
  text : String
  year : Int
  title : String
  wikipedia_url : Option String := none
  thumbnail_url : Option String := none
  extract : Option String := none
deriving DecidableEq, Repr

/-- Model of one element of pages in a raw upstream record: only the fields
the source reads, with missing-at-any-level nesting collapsed to none
(first_page.get reads title and extract; content_urls.get("desktop")
followed by .get("page") yields contentDesktopPage; thumbnail.get("source")
yields thumbnailSource). -/
structure RawPage where
  title : Option String := none
  extract : Option String := none
  contentDesktopPage : Option String := none
  thumbnailSource : Option String := none
deriving DecidableEq, Repr

/-- Model of one raw upstream record as read by _parse_event: raw.get("text"),
raw.get("year"), raw.get("pages") or []. -/
structure RawRecord where
  text : Option String := none
  year : Option Int := none
  pages : List RawPage := []
deriving DecidableEq, Repr

/-- Model of pages[0] if pages else the empty dict. -/
def emptyPage : RawPage := {}

/-- Embedding of _parse_event: records lacking text or year yield none;
the title falls back to the first 80 characters of text when the first page
provides none. -/
def parse_event (raw : RawRecord) : Option WikipediaEvent :=
  match raw.text, raw.year with
  | some text, some year =>
      let fp := raw.pages.headD emptyPage
      some { text := text, year := year,
             title := fp.title.getD (pyTake 80 text),
             wikipedia_url := fp.contentDesktopPage,
             thumbnail_url := fp.thumbnailSource,
             extract := fp.extract }
  | _, _ => none

/-- First-occurrence deduplication by a key, with the set of already-seen keys
made explicit; models the seen-set loop of fetch_on_this_day (and the Python
set used for unique place names in events.py). -/
def dedupByAux {α κ : Type} [DecidableEq κ] (key : α → κ) :
    List α → List κ → List α
  | [], _ => []
  | a :: as, seen =>
      if key a ∈ seen then dedupByAux key as seen
      else a :: dedupByAux key as (key a :: seen)

/-- First-occurrence deduplication by a key. -/
def dedupBy {α κ : Type} [DecidableEq κ] (key : α → κ) (l : List α) : List α :=
  dedupByAux key l []

/-- Dedup key of fetch_on_this_day: the (year, text) pair. -/
def evKey (e : WikipediaEvent) : Int × String := (e.year, e.text)

/-- Well-formed JSON body of the upstream feed: the two record lists the
source reads (data.get("selected") or [], data.get("events") or []). -/
structure ParsedBody where
  selected : List RawRecord := []
  events : List RawRecord := []

/-- Outcome of the upstream HTTP interaction of fetch_on_this_day.  The three
failure constructors are the exceptions caught by the source (timeout,
raise_for_status, other transport errors); success carries the response body,
none meaning resp.json() fails to parse it. -/
inductive FetchOutcome
  | timeout
  | statusError (code : Nat)
  | transportError
  | success (body : Option ParsedBody)

/-- Records of a body in the order the source iterates them. -/
def rawsOf (body : ParsedBody) : List RawRecord := body.selected ++ body.events

/-- Parsed records of a body before dedup and sort. -/
def parsedOf (body : ParsedBody) : List WikipediaEvent :=
  (rawsOf body).filterMap parse_event

/-- Embedding of fetch_on_this_day.  The three caught transport-level failures
return the empty list; a success whose body resp.json() cannot parse raises
(the json call sits outside the try block in the source), modelled as
Except.error. -/
def fetch_on_this_day (outcome : FetchOutcome) : Except Unit (List WikipediaEvent) :=
  match outcome with
  | .timeout => .ok []
  | .statusError _ => .ok []
  | .transportError => .ok []
  | .success none => .error ()
  | .success (some body) =>
      .ok ((dedupBy evKey (parsedOf body)).mergeSort (fun a b => decide (a.year ≤ b.year)))

/-! Gazetteer (src/backend/src/services/geocoding.py, _load_curated and
lookup_curated).  The CSV is modelled as a list of already-split rows with
numeric lat/lng (csv.DictReader plus float conversion); dict build order
makes later rows overwrite earlier ones, which dget models. -/

structure CsvRow where
  historical_name : String
  modern_name : String
  lat : Rat
  lng : Rat
deriving DecidableEq, Repr

/-- Location one curated CSV row is turned into: confidence high, geocoder
curated, the stripped historical name as place name, and the stripped modern
name as modern equivalent. -/
def rowLoc (r : CsvRow) : GeoLocation :=
  { coordinates := (r.lng, r.lat),
    confidence := .high,
    geocoder := .curated,
    place_name := pyStrip r.historical_name,
    modern_equivalent := some (pyStrip r.modern_name) }

/-- Embedding of _load_curated: key is the stripped lowercased historical
name. -/
def load_curated (rows : List CsvRow) : List (String × GeoLocation) :=
  rows.map (fun r => (pyLower (pyStrip r.historical_name), rowLoc r))

/-- Embedding of lookup_curated: case-insensitive, trimmed exact-key match. -/
def lookup_curated (rows : List CsvRow) (place_name : String) : Option GeoLocation :=
  dget (load_curated rows) (pyLower (pyStrip place_name))

/-! Rate-limited Nominatim geocoder (geocode_nominatim).  The model makes the
event-loop clock explicit: the caller invokes the function at time tNow with
the shared last-call timestamp last; asyncio.sleep is exact and local
processing takes no time, so the HTTP call is issued at callTime and returns
after dur seconds.  The source updates _last_nominatim_call right after
client.get returns, before raise_for_status, so the timestamp is updated for
any outcome in which an HTTP response arrived, and is NOT updated when
client.get itself raises (timeout or other transport failure).  A success
response whose body fails json parsing raises a decode error that the except
clause (httpx.HTTPError only) does not catch. -/

/-- One hit of the Nominatim response: the fields the source reads. -/
structure NomHit where
  lon : Rat
  lat : Rat
  display_name : Option String := none
deriving DecidableEq, Repr

/-- Outcome of the client.get call inside geocode_nominatim: either the get
itself raises (transport failure, including timeouts), or a response arrives
with ok = true iff raise_for_status passes, and a body that json-parses to a
hit list (none models a malformed body). -/
inductive HttpOutcome
  | transportFail
  | response (ok : Bool) (body : Option (List NomHit))
deriving DecidableEq

/-- Result of one modelled geocode_nominatim call: the returned value (error
models a propagated exception), the new shared timestamp, the instant the
HTTP call was issued (none when no call was made), and the instant control
returns to the caller. -/
structure GeoCallResult where
  result : Except Unit (Option GeoLocation)
  lastCall : Rat
  callTime : Option Rat
  endTime : Rat

/-- Embedding of geocode_nominatim over an explicit clock and throttle state. -/
def geocode_nominatim (place_name : String) (last tNow : Rat)
    (outcome : HttpOutcome) (dur : Rat) : GeoCallResult :=
  let name := pyStrip (pyTake 200 place_name)
  if name = "" then
    { result := .ok none, lastCall := last, callTime := none, endTime := tNow }
  else
    let elapsed := tNow - last
    let tCall := if elapsed < 1 then tNow + (1 - elapsed) else tNow
    let tRet := tCall + dur
    match outcome with
    | .transportFail =>
        { result := .ok none, lastCall := last, callTime := some tCall, endTime := tRet }
    | .response ok body =>
        if ok then
          match body with
          | none =>
              { result := .error (), lastCall := tRet, callTime := some tCall, endTime := tRet }
          | some [] =>
              { result := .ok none, lastCall := tRet, callTime := some tCall, endTime := tRet }
          | some (hit :: _) =>
              { result := .ok (some
                  { coordinates := (hit.lon, hit.lat),
                    confidence := .medium,
                    geocoder := .nominatim,
                    place_name := name,
                    modern_equivalent := some (hit.display_name.getD "") }),
                lastCall := tRet, callTime := some tCall, endTime := tRet }
        else
          { result := .ok none, lastCall := tRet, callTime := some tCall, endTime := tRet }

/-- One scheduled call in a sequential trace of geocoder calls: the idle time
the caller spends before invoking the geocoder after the previous call
returned, the HTTP outcome, and the call duration. -/
structure CallSpec where
  gap : Rat
  outcome : HttpOutcome
  dur : Rat
deriving DecidableEq

/-- Sequential execution of geocode_nominatim calls (the aggregator issues
external calls strictly sequentially); returns the issue timestamp of each
call, paired with its spec. -/
def runThrottle (last t : Rat) : List CallSpec → List (Rat × CallSpec)
  | [] => []
  | c :: cs =>
      let r := geocode_nominatim "London" last (t + c.gap) c.outcome c.dur
      (r.callTime.getD (t + c.gap), c) :: runThrottle r.lastCall r.endTime cs

/-! Event aggregator (src/backend/src/services/events.py).  Module-level
dicts _events_cache and _nominatim_cache become AggState; the outcomes of
the awaited collaborators (fetch_on_this_day, extract_place_name and
geocode_nominatim results) and the curated CSV become an explicit
environment.  An effect trace records the fetch, extraction and external
geocoder calls the aggregation performs.  Python set iteration order over
unique place names is unspecified; the model fixes first-occurrence order,
on which no claim depends. -/

structure Env where
  fetch : Nat → Nat → List WikipediaEvent
  extract : String → Option String
  nominatim : String → Option GeoLocation
  rows : List CsvRow
  nowIso : String

structure AggState where
  events_cache : List (String × List HistoricalEvent) := []
  nominatim_cache : List (String × GeoLocation) := []
  nextId : Nat := 0

inductive Effect
  | fetchCall (month day : Nat)
  | extractCall (text : String)
  | nominatimCall (place : String)
deriving DecidableEq, Repr

/-- Zero-padded two-digit rendering, modelling the 02d format spec. -/
def pad2 (n : Nat) : String := if n < 10 then "0" ++ toString n else toString n

/-- Date key "MM-DD". -/
def dateKey (month day : Nat) : String := pad2 month ++ "-" ++ pad2 day

/-- Text handed to extract_place_name for one event: title, a dot, a space,
then the text. -/
def combined (we : WikipediaEvent) : String := we.title ++ ". " ++ we.text

/-- Distinct non-empty extracted place names of a batch (the Python set,
iterated here in first-occurrence order). -/
def uniquePlacesOf (env : Env) (wiki : List WikipediaEvent) : List String :=
  dedupBy id ((wiki.map (fun we => env.extract (combined we))).filterMap id)

/-- First resolution loop: persistent Nominatim cache, then curated lookup;
unresolved names are queued for Nominatim in iteration order. -/
def resolvePlan (nomCache : List (String × GeoLocation)) (rows : List CsvRow) :
    List String → List (String × GeoLocation) × List String
  | [] => ([], [])
  | p :: ps =>
      match dget nomCache p with
      | some g =>
          let pr := resolvePlan nomCache rows ps
          ((p, g) :: pr.1, pr.2)
      | none =>
          match lookup_curated rows p with
          | some g =>
              let pr := resolvePlan nomCache rows ps
              ((p, g) :: pr.1, pr.2)
          | none =>
              let pr := resolvePlan nomCache rows ps
              (pr.1, p :: pr.2)

/-- Queue of places sent to the external geocoder for a batch. -/
def nomQueueOf (env : Env) (s : AggState) (wiki : List WikipediaEvent) : List String :=
  (resolvePlan s.nominatim_cache env.rows (uniquePlacesOf env wiki)).2

/-- Batch-local geocode results: first-loop hits (always present) followed by
the sequential Nominatim results, which are stored even when none. -/
def geoResultsFor (env : Env) (s : AggState) (wiki : List WikipediaEvent) :
    List (String × Option GeoLocation) :=
  let pr := resolvePlan s.nominatim_cache env.rows (uniquePlacesOf env wiki)
  pr.1.map (fun pg => (pg.1, some pg.2)) ++ pr.2.map (fun p => (p, env.nominatim p))

/-- Persistent Nominatim cache after the batch: successful external results
are written through. -/
def nomCacheAfter (env : Env) (nomCache : List (String × GeoLocation)) :
    List String → List (String × GeoLocation)
  | [] => nomCache
  | p :: ps =>
      match env.nominatim p with
      | some g => nomCacheAfter env (dset nomCache p g) ps
      | none => nomCacheAfter env nomCache ps

/-- Lookup of geo_results.get(place): absent key and stored none coincide. -/
def locFor (geo : List (String × Option GeoLocation)) (p : String) : Option GeoLocation :=
  (List.lookup p geo).bind id

/-- Keyword table of _infer_categories, in declaration order. -/
def keywordMap : List (String × List String) :=
  [("political", ["president", "election", "treaty", "constitution", "parliament",
                  "government", "republic", "independence", "colony"]),
   ("military", ["war", "battle", "army", "siege", "invasion", "military",
                 "troops", "naval", "surrender"]),
   ("scientific", ["discover", "invent", "patent", "scientist", "theory",
                   "experiment", "laboratory", "research"]),
   ("cultural", ["art", "music", "film", "book", "theater", "museum",
                 "festival", "olympic"]),
   ("exploration", ["explore", "expedition", "voyage", "discover", "landing", "sail"]),
   ("economic", ["trade", "company", "bank", "stock", "market", "industry"]),
   ("religious", ["church", "pope", "cathedral", "religion", "monastery", "crusade"]),
   ("natural_disaster", ["earthquake", "flood", "hurricane", "volcano",
                         "tsunami", "famine"])]

/-- Embedding of _infer_categories: keyword-substring matching over the
lowercased text, falling back to the single category historical. -/
def infer_categories (text : String) : List String :=
  let tl := pyLower text
  let cats := (keywordMap.filter (fun kv => kv.2.any (fun kw => strContainsSub tl kw))).map
    (fun kv => kv.1)
  if cats.isEmpty then ["historical"] else cats

/-- Construction of one HistoricalEvent; uuid4 is modelled by a state
counter, datetime.now by the environment clock.  Python or-fallbacks make
description fall back to text on an absent or empty extract, and drop an
empty thumbnail URL. -/
def buildEvent (key : String) (env : Env) (idN : Nat) (we : WikipediaEvent)
    (loc : GeoLocation) : HistoricalEvent :=
  { id := toString idN,
    iso_date := key,
    source := { type := "wikipedia", source_url := we.wikipedia_url },
    title := we.title,
    description := match we.extract with
      | some e => if e = "" then we.text else e
      | none => we.text,
    year := we.year,
    categories := infer_categories we.text,
    location := loc,
    media := match we.thumbnail_url with
      | some u => if u = "" then none else some u
      | none => none,
    created_at := env.nowIso }

/-- Assembly loop: events with no extracted place or no resolved location are
skipped, all others become HistoricalEvents in fetch order. -/
def assemble (key : String) (env : Env) (geo : List (String × Option GeoLocation)) :
    Nat → List (WikipediaEvent × Option String) → List HistoricalEvent × Nat
  | idN, [] => ([], idN)
  | idN, (we, pOpt) :: rest =>
      match pOpt with
      | none => assemble key env geo idN rest
      | some p =>
          match locFor geo p with
          | none => assemble key env geo idN rest
          | some loc =>
              let pr := assemble key env geo (idN + 1) rest
              (buildEvent key env idN we loc :: pr.1, pr.2)

/-- Embedding of get_events_for_date: returns the event list, the new module
state and the effect trace. -/
def get_events_for_date (env : Env) (s : AggState) (month day : Nat) :
    List HistoricalEvent × AggState × List Effect :=
  let key := dateKey month day
  match dget s.events_cache key with
  | some evs => (evs, s, [])
  | none =>
      let wiki := env.fetch month day
      if wiki.isEmpty then
        ([], { s with events_cache := dset s.events_cache key [] }, [.fetchCall month day])
      else
        let pairs := wiki.map (fun we => (we, env.extract (combined we)))
        let geo := geoResultsFor env s wiki
        let queue := nomQueueOf env s wiki
        let pr := assemble key env geo s.nextId pairs
        (pr.1,
         { events_cache := dset s.events_cache key pr.1,
           nominatim_cache := nomCacheAfter env s.nominatim_cache queue,
           nextId := pr.2 },
         [Effect.fetchCall month day]
           ++ wiki.map (fun we => Effect.extractCall (combined we))
           ++ queue.map Effect.nominatimCall)

/-- Embedding of clear_cache: purges only the date cache, keeping the
persistent Nominatim cache. -/
def clear_cache (s : AggState) : AggState :=
  { s with events_cache := [] }

/-! Supporting lemmas. -/

theorem sublist_dedupByAux {α κ : Type} [DecidableEq κ] (key : α → κ) :
    ∀ (l : List α) (seen : List κ), (dedupByAux key l seen).Sublist l := by
  intro l
  induction l with
  | nil => intro seen; simp [dedupByAux]
  | cons a as ih =>
      intro seen
      by_cases h : key a ∈ seen
      · simp only [dedupByAux, if_pos h]
        exact (ih seen).trans (List.sublist_cons_self a as)
      · simp only [dedupByAux, if_neg h]
        exact (ih (key a :: seen)).cons₂ a

theorem dedupByAux_filter_eq {α κ : Type} [DecidableEq κ] (key : α → κ) (k : κ) :
    ∀ (l : List α) (seen : List κ),
      (dedupByAux key l seen).filter (fun a => decide (key a = k))
        = if k ∈ seen then [] else (l.filter (fun a => decide (key a = k))).take 1 := by
  intro l
  induction l with
  | nil => intro seen; by_cases h : k ∈ seen <;> simp [dedupByAux, h]
  | cons a as ih =>
      intro seen
      by_cases hseen : key a ∈ seen
      · rw [dedupByAux, if_pos hseen, ih]
        by_cases hk : k ∈ seen
        · rw [if_pos hk, if_pos hk]
        · have hd : decide (key a = k) = false := by
            simp only [decide_eq_false_iff_not]
            exact fun h => hk (h ▸ hseen)
          rw [if_neg hk, if_neg hk, List.filter_cons, hd]
          simp
      · rw [dedupByAux, if_neg hseen, List.filter_cons]
        by_cases hak : key a = k
        · have hd : decide (key a = k) = true := by simp [hak]
          have hk : k ∉ seen := hak ▸ hseen
          rw [hd, if_pos rfl, ih, if_pos (by simp [hak]), if_neg hk,
            List.filter_cons, hd, if_pos rfl]
          simp
        · have hd : decide (key a = k) = false := by simp [hak]
          rw [hd]
          simp only [Bool.false_eq_true, if_false]
          rw [ih]
          by_cases hk : k ∈ seen
          · rw [if_pos (by simp [hk]), if_pos hk]
          · have hne : k ∉ key a :: seen := by
              simp only [List.mem_cons, not_or]
              exact ⟨fun h => hak h.symm, hk⟩
            rw [if_neg hne, if_neg hk, List.filter_cons, hd]
            simp

theorem dedupByAux_keys_fresh {α κ : Type} [DecidableEq κ] (key : α → κ) :
    ∀ (l : List α) (seen : List κ),
      ((dedupByAux key l seen).map key).Nodup
        ∧ ∀ k ∈ (dedupByAux key l seen).map key, k ∉ seen := by
  intro l
  induction l with
  | nil => intro seen; simp [dedupByAux]
  | cons a as ih =>
      intro seen
      by_cases h : key a ∈ seen
      · simpa [dedupByAux, if_pos h] using ih seen
      · have ihh := ih (key a :: seen)
        refine ⟨?_, ?_⟩
        · simp only [dedupByAux, if_neg h, List.map_cons, List.nodup_cons]
          exact ⟨fun hmem => (ihh.2 _ hmem) (by simp), ihh.1⟩
        · intro k hk
          simp only [dedupByAux, if_neg h, List.map_cons, List.mem_cons] at hk
          rcases hk with rfl | hk
          · exact h
          · exact fun hks => (ihh.2 k hk) (by simp [hks])

theorem sublist_dedupBy {α κ : Type} [DecidableEq κ] (key : α → κ) (l : List α) :
    (dedupBy key l).Sublist l :=
  sublist_dedupByAux key l []

theorem dedupBy_filter_eq {α κ : Type} [DecidableEq κ] (key : α → κ) (k : κ) (l : List α) :
    (dedupBy key l).filter (fun a => decide (key a = k))
      = (l.filter (fun a => decide (key a = k))).take 1 := by
  simpa using dedupByAux_filter_eq key k l []

theorem nodup_keys_dedupBy {α κ : Type} [DecidableEq κ] (key : α → κ) (l : List α) :
    ((dedupBy key l).map key).Nodup :=
  (dedupByAux_keys_fresh key l []).1

theorem nodup_dedupBy_id {α : Type} [DecidableEq α] (l : List α) :
    (dedupBy id l).Nodup := by
  have h := nodup_keys_dedupBy (id : α → α) l
  simpa using h

theorem mem_of_lookup_eq_some {α : Type} {l : List (String × α)} {k : String} {v : α}
    (h : List.lookup k l = some v) : (k, v) ∈ l := by
  induction l with
  | nil => simp [List.lookup] at h
  | cons p rest ih =>
      rw [List.lookup] at h
      by_cases hk : k == p.1
      · simp only [hk, if_pos] at h
        have hkey : k = p.1 := by simpa using hk
        have hv : v = p.2 := by injection h with h2; exact h2.symm
        subst hkey; subst hv
        exact List.mem_cons_self _ _
      · simp only [hk] at h
        exact List.mem_cons_of_mem _ (ih (by simpa [hk] using h))

theorem dget_dset_self {α : Type} (d : List (String × α)) (k : String) (v : α) :
    dget (dset d k v) k = some v := by
  simp [dget, dset, List.lookup]

theorem dget_dset_of_ne {α : Type} (d : List (String × α)) (k k2 : String) (v : α)
    (h : k2 ≠ k) : dget (dset d k2 v) k = dget d k := by
  have hbeq : (k == k2) = false := by
    simpa [beq_iff_eq] using fun he => h he.symm
  simp [dget, dset, List.lookup, hbeq]

theorem resolvePlan_queue_sublist (nomCache : List (String × GeoLocation))
    (rows : List CsvRow) :
    ∀ ps : List String, ((resolvePlan nomCache rows ps).2).Sublist ps := by
  intro ps
  induction ps with
  | nil => simp [resolvePlan]
  | cons p rest ih =>
      rw [resolvePlan]
      cases dget nomCache p with
      | some g => simpa using ih.trans (List.sublist_cons_self p rest)
      | none =>
          cases lookup_curated rows p with
          | some g => simpa using ih.trans (List.sublist_cons_self p rest)
          | none => simpa using ih.cons₂ p

theorem pairwise_year_mergeSort (l : List WikipediaEvent) :
    (l.mergeSort (fun a b => decide (a.year ≤ b.year))).Pairwise (fun a b => a.year ≤ b.year) := by
  have htrans : ∀ a b c : WikipediaEvent,
      decide (a.year ≤ b.year) = true → decide (b.year ≤ c.year) = true →
        decide (a.year ≤ c.year) = true := by
    intro a b c h1 h2
    simp only [decide_eq_true_eq] at h1 h2 ⊢
    exact le_trans h1 h2
  have htotal : ∀ a b : WikipediaEvent,
      (decide (a.year ≤ b.year) || decide (b.year ≤ a.year)) = true := by
    intro a b
    rcases le_total a.year b.year with h | h <;> simp [h]
  have hs := List.sorted_mergeSort htrans htotal l
  exact hs.imp (fun hab => of_decide_eq_true hab)

/-! Claim C2.  The counterexample is a 200 response whose body resp.json()
cannot parse: the decode error is raised to the caller because the json call
sits outside the try block, so the claim that a malformed body degrades to an
empty list fails on the code. -/

/-- C2 counterexample: a success response with a malformed body makes
fetch_on_this_day raise (return an error) instead of returning the empty
list. -/
theorem fetch_malformed_body_raises :
    fetch_on_this_day (.success none) = .error ()
      ∧ fetch_on_this_day (.success none) ≠ .ok [] :=
  ⟨rfl, fun h => Except.noConfusion h⟩

/-- C2 (amended): timeout, non-success HTTP status and other transport errors
all degrade to the empty list and are never raised; a success response whose
body parses always returns normally.  Only a malformed body raises. -/
theorem fetch_transport_failures_degrade (code : Nat) (body : ParsedBody) :
    fetch_on_this_day .timeout = .ok []
      ∧ fetch_on_this_day (.statusError code) = .ok []
      ∧ fetch_on_this_day .transportError = .ok []
      ∧ ∃ res, fetch_on_this_day (.success (some body)) = .ok res :=
  ⟨rfl, rfl, rfl, ⟨_, rfl⟩⟩

/-- C9: for a successfully parsed response the result is sorted ascending by
year; before the final sort, duplicates are exactly the records sharing the
(year, text) key, the first occurrence winning with relative order preserved
(the deduped list is a sublist of the parsed records and keeps, for every
key, exactly the first record carrying it); a record whose first page has no
structured title gets the first 80 characters of its text as title. -/
theorem fetch_sorted_dedup_title (body : ParsedBody) (res : List WikipediaEvent)
    (h : fetch_on_this_day (.success (some body)) = .ok res) :
    res.Pairwise (fun a b => a.year ≤ b.year)
      ∧ res.Perm (dedupBy evKey (parsedOf body))
      ∧ (dedupBy evKey (parsedOf body)).Sublist (parsedOf body)
      ∧ (∀ k, (dedupBy evKey (parsedOf body)).filter (fun e => decide (evKey e = k))
            = ((parsedOf body).filter (fun e => decide (evKey e = k))).take 1)
      ∧ ((dedupBy evKey (parsedOf body)).map evKey).Nodup
      ∧ (∀ raw e, parse_event raw = some e →
            (raw.pages.headD emptyPage).title = none → e.title = pyTake 80 e.text) := by
  have hres : res = (dedupBy evKey (parsedOf body)).mergeSort
      (fun a b => decide (a.year ≤ b.year)) := by
    have : Except.ok (ε := Unit)
        ((dedupBy evKey (parsedOf body)).mergeSort (fun a b => decide (a.year ≤ b.year)))
        = Except.ok res := h
    injection this with h2
    exact h2.symm
  subst hres
  refine ⟨pairwise_year_mergeSort _, List.mergeSort_perm _ _, sublist_dedupBy _ _,
    fun k => dedupBy_filter_eq evKey k _, nodup_keys_dedupBy _ _, ?_⟩
  rintro ⟨tx, yr, pages⟩ e hp ht
  cases tx with
  | none => cases hp
  | some text =>
      cases yr with
      | none => cases hp
      | some year =>
          rw [parse_event] at hp
          injection hp with hp
          subst hp
          cases pages with
          | nil => simp [emptyPage]
          | cons pg rest => simp_all [emptyPage]

/-- Concrete body used to exercise the fetch embedding: a duplicate
(year, text) pair across selected and events, and a record with no pages. -/
def body0 : ParsedBody :=
  { selected := [{ text := some "a very long description of some event", year := some 5 }],
    events := [{ text := some "a very long description of some event", year := some 5 },
               { text := some "b", year := some 3,
                 pages := [{ title := some "B title" }] }] }

/-- Result of the fetch embedding on body0. -/
def res0 : List WikipediaEvent :=
  [{ text := "b", year := 3, title := "B title" },
   { text := "a very long description of some event", year := 5,
     title := "a very long description of some event" }]

theorem fetch_sorted_dedup_title_witness :
    fetch_on_this_day (.success (some body0)) = .ok res0
      ∧ res0.Pairwise (fun a b => a.year ≤ b.year)
      ∧ res0.Perm (dedupBy evKey (parsedOf body0)) := by
  have h : fetch_on_this_day (.success (some body0)) = .ok res0 := by
    simp [fetch_on_this_day, body0, res0, parsedOf, rawsOf, parse_event, dedupBy, dedupByAux,
      evKey, emptyPage, pyTake, List.mergeSort]
  have hc := fetch_sorted_dedup_title body0 res0 h
  exact ⟨h, hc.1, hc.2.1⟩

/-- C10: a raw record lacking the text field or the year field parses to
none, so it is silently dropped: the fetch still returns normally, and every
returned event comes from a record that parsed successfully. -/
theorem parse_requires_text_year :
    (∀ raw : RawRecord, raw.text = none ∨ raw.year = none → parse_event raw = none)
      ∧ (∀ body : ParsedBody, ∃ res, fetch_on_this_day (.success (some body)) = .ok res
            ∧ ∀ e ∈ res, ∃ raw ∈ rawsOf body, parse_event raw = some e) := by
  constructor
  · intro raw hmiss
    rcases hmiss with ht | hy
    · rw [parse_event, ht]
    · rw [parse_event, hy]
      cases raw.text <;> rfl
  · intro body
    refine ⟨_, rfl, ?_⟩
    intro e he
    have h1 : e ∈ dedupBy evKey (parsedOf body) :=
      ((List.mergeSort_perm _ _).mem_iff).1 he
    have h2 : e ∈ parsedOf body := (sublist_dedupBy evKey _).subset h1
    exact List.mem_filterMap.1 h2

theorem parse_requires_text_year_witness :
    parse_event { text := none, year := some 5 } = none
      ∧ parse_event { text := some "a", year := none } = none :=
  ⟨parse_requires_text_year.1 _ (Or.inl rfl), parse_requires_text_year.1 _ (Or.inr rfl)⟩

/-! Claims C1 and C4.  In the source, _last_nominatim_call is assigned on the
line after client.get returns and before raise_for_status, so an HTTP error
status still updates it, while an exception raised by client.get itself
(timeout or other transport failure) skips the update. -/

/-- C1: evaluation at the failing input.  A geocode call whose transport
fails (last timestamp 0, invoked at t=5, failure after 0.1s) issues an HTTP
call at t=5 yet leaves the shared timestamp at 0, while the same call whose
response arrives with an error status does update the timestamp to its
completion instant.  The claim that every external call mutates ThrottleState
even on transport failure or timeout fails on the code. -/
theorem throttle_missed_update_on_transport_failure :
    (geocode_nominatim "Paris" 0 5 .transportFail (1/10)).callTime = some 5
      ∧ (geocode_nominatim "Paris" 0 5 .transportFail (1/10)).lastCall = 0
      ∧ (geocode_nominatim "Paris" 0 5 .transportFail (1/10)).endTime = 5 + 1/10
      ∧ (geocode_nominatim "Paris" 0 5 (.response false (some [])) (1/10)).lastCall = 5 + 1/10 := by
  unfold geocode_nominatim
  norm_num [show pyStrip (pyTake 200 "Paris") ≠ "" from by decide]

/-- Concrete sequential trace for claim C4: a transport failure lasting 0.2s
followed by an immediate retry for another place. -/
def c4Specs : List CallSpec :=
  [{ gap := 0, outcome := .transportFail, dur := 1/5 },
   { gap := 0, outcome := .response true (some []), dur := 0 }]

/-- C4: evaluation at the failing input.  Starting from timestamp 0 at t=0,
the first call is issued at t=1 and fails in transport at t=1.2 without
updating the shared timestamp; the second call is then issued at t=1.2, only
0.2s after the first, violating the claimed minimum 1-second gap between
consecutive call timestamps. -/
theorem throttle_gap_violation :
    (runThrottle 0 0 c4Specs).map (fun pc => pc.1) = [1, 6/5]
      ∧ (6:Rat)/5 - 1 < 1 := by
  constructor
  · unfold c4Specs runThrottle geocode_nominatim
    norm_num [show pyStrip (pyTake 200 "London") ≠ "" from by decide]
    unfold runThrottle geocode_nominatim
    norm_num [show pyStrip (pyTake 200 "London") ≠ "" from by decide]
    rfl
  · norm_num

/-- Supporting positive result: when an HTTP response arrives for every call
(no transport failures), consecutive call timestamps in a sequential trace
are at least 1 second apart, for any non-negative call durations. -/
theorem throttle_chain_of_responses :
    ∀ (specs : List CallSpec) (last t : Rat),
      (∀ c ∈ specs, 0 ≤ c.dur) →
      (∀ c ∈ specs, c.outcome ≠ HttpOutcome.transportFail) →
      List.Chain' (fun p q : Rat × CallSpec => p.1 + 1 ≤ q.1) (runThrottle last t specs) := by
  have hname : pyStrip (pyTake 200 "London") ≠ "" := by decide
  have hct : ∀ (last tNow : Rat) (out : HttpOutcome) (dur : Rat),
      (geocode_nominatim "London" last tNow out dur).callTime.getD tNow = max tNow (last + 1) := by
    intro last tNow out dur
    rw [geocode_nominatim]
    simp only [if_neg hname]
    have harith : (if tNow - last < 1 then tNow + (1 - (tNow - last)) else tNow)
        = max tNow (last + 1) := by
      by_cases hel : tNow - last < 1
      · rw [if_pos hel, max_eq_right (by linarith)]
        ring
      · rw [if_neg hel, max_eq_left (by linarith)]
    cases out with
    | transportFail => simpa using harith
    | response ok body =>
        cases ok <;> cases body with
        | none => simpa using harith
        | some hits => cases hits <;> simpa using harith
  have hlc : ∀ (last tNow : Rat) (ok : Bool) (body : Option (List NomHit)) (dur : Rat),
      (geocode_nominatim "London" last tNow (.response ok body) dur).lastCall
        = ((geocode_nominatim "London" last tNow (.response ok body) dur).callTime.getD tNow)
            + dur := by
    intro last tNow ok body dur
    rw [geocode_nominatim]
    simp only [if_neg hname]
    cases ok <;> cases body with
    | none => simp
    | some hits => cases hits <;> simp
  intro specs
  induction specs with
  | nil => intro last t _ _; simp [runThrottle]
  | cons c cs ih =>
      intro last t hdur hresp
      rw [runThrottle]
      cases cs with
      | nil =>
          simp [runThrottle]
      | cons c2 cs2 =>
          rw [runThrottle]
          refine List.Chain'.cons ?_ ?_
          · -- gap between the first two issued calls
            have hout : c.outcome ≠ HttpOutcome.transportFail := hresp c (by simp)
            obtain ⟨ok, body, hob⟩ : ∃ ok body, c.outcome = HttpOutcome.response ok body := by
              cases hco : c.outcome with
              | transportFail => exact absurd hco hout
              | response ok body => exact ⟨ok, body, rfl⟩
            have h1 := hct last (t + c.gap) c.outcome c.dur
            rw [hob] at h1 ⊢
            have h2 := hlc last (t + c.gap) ok body c.dur
            have h3 := hct ((geocode_nominatim "London" last (t + c.gap)
                (.response ok body) c.dur).lastCall)
              ((geocode_nominatim "London" last (t + c.gap) (.response ok body) c.dur).endTime
                + c2.gap) c2.outcome c2.dur
            rw [h1, h3, h2, h1]
            have hd : 0 ≤ c.dur := hdur c (by simp)
            have := le_max_right
              ((geocode_nominatim "London" last (t + c.gap) (.response ok body) c.dur).endTime
                + c2.gap)
              (max (t + c.gap) (last + 1) + c.dur + 1)
            refine le_trans ?_ this
            linarith
          · have hch := ih (geocode_nominatim "London" last (t + c.gap) c.outcome c.dur).lastCall
              (geocode_nominatim "London" last (t + c.gap) c.outcome c.dur).endTime
              (fun x hx => hdur x (by simp [hx]))
              (fun x hx => hresp x (by simp [hx]))
            rw [runThrottle] at hch
            exact hch

/-! Claims C6 and C7.  The spec names the gazetteer resolver tag
"gazetteer"; in the code that tag is the geocoder literal "curated" assigned
by _load_curated, and the external stage tag "external" is the literal
"nominatim".  The theorems below use the code literals. -/

/-- Modelled from the spec: the curated dataset data/historical_places.csv is
not under src (only its loader is), so its Constantinople row is taken from
Scenario B of the spec (historical name Constantinople, modern equivalent
Istanbul); the unit tests assert the same pair.  The coordinates are
representative whole numbers near Istanbul; no claim depends on them. -/
def specRows : List CsvRow :=
  [{ historical_name := "Constantinople", modern_name := "Istanbul", lat := 41, lng := 29 }]

/-- Location produced for Constantinople from the modelled dataset row. -/
def constantinopleLoc : GeoLocation :=
  { coordinates := (29, 41), confidence := .high, geocoder := .curated,
    place_name := "Constantinople", modern_equivalent := some "Istanbul" }

/-- C6: any successful gazetteer lookup yields geocoder curated (the tag the
spec calls resolver gazetteer), confidence high, and the modern-equivalent
name of the matched dataset row; in particular Constantinople resolves with
modern equivalent Istanbul. -/
theorem lookup_curated_contract :
    (∀ (rows : List CsvRow) (name : String) (loc : GeoLocation),
        lookup_curated rows name = some loc →
          loc.geocoder = .curated ∧ loc.confidence = .high
            ∧ ∃ r ∈ rows, loc.place_name = pyStrip r.historical_name
                ∧ loc.modern_equivalent = some (pyStrip r.modern_name)
                ∧ loc.coordinates = (r.lng, r.lat))
      ∧ lookup_curated specRows "Constantinople" = some constantinopleLoc := by
  constructor
  · intro rows name loc h
    rw [lookup_curated, dget] at h
    have hmem := mem_of_lookup_eq_some h
    rw [List.mem_reverse] at hmem
    rw [load_curated, List.mem_map] at hmem
    obtain ⟨r, hr, hpair⟩ := hmem
    have hloc : loc = rowLoc r := by
      have := congrArg Prod.snd hpair
      simpa using this.symm
    subst hloc
    exact ⟨rfl, rfl, r, hr, rfl, rfl, rfl⟩
  · decide

theorem lookup_curated_contract_witness :
    constantinopleLoc.geocoder = .curated ∧ constantinopleLoc.confidence = .high
      ∧ ∃ r ∈ specRows, constantinopleLoc.place_name = pyStrip r.historical_name
          ∧ constantinopleLoc.modern_equivalent = some (pyStrip r.modern_name)
          ∧ constantinopleLoc.coordinates = (r.lng, r.lat) :=
  lookup_curated_contract.1 specRows "Constantinople" constantinopleLoc
    lookup_curated_contract.2

/-- Coordinate ranges claimed by the spec. -/
def inRange (lng lat : Rat) : Prop :=
  -180 ≤ lng ∧ lng ≤ 180 ∧ -90 ≤ lat ∧ lat ≤ 90

/-- Dataset row with an out-of-range longitude, which no stage rejects. -/
def atlantisRows : List CsvRow :=
  [{ historical_name := "Atlantis", modern_name := "Atlantis", lat := 0, lng := 999 }]

/-- Location the gazetteer builds from the out-of-range row. -/
def atlantisLoc : GeoLocation :=
  { coordinates := (999, 0), confidence := .high, geocoder := .curated,
    place_name := "Atlantis", modern_equivalent := some "Atlantis" }

/-- C7 counterexample: neither the gazetteer loader nor the geocoder
validates coordinate ranges, so a dataset row with longitude 999 yields a
resolved GeoLocation whose longitude exceeds 180, refuting the claim for
every possible dataset row. -/
theorem resolved_bounds_violation :
    lookup_curated atlantisRows "Atlantis" = some atlantisLoc
      ∧ ¬ (atlantisLoc.coordinates.1 ≤ 180) := by
  constructor
  · decide
  · show ¬ ((999:Rat) ≤ 180)
    norm_num

/-- C7 (amended): both stages copy coordinates verbatim from their input, so
every resolved GeoLocation has in-range coordinates provided every dataset
row and every geocoder hit is in range (neither stage itself validates). -/
theorem resolved_bounds_amended :
    (∀ (rows : List CsvRow) (name : String) (loc : GeoLocation),
        (∀ r ∈ rows, inRange r.lng r.lat) → lookup_curated rows name = some loc →
          inRange loc.coordinates.1 loc.coordinates.2)
      ∧ (∀ (pn : String) (last t : Rat) (ok : Bool) (hits : List NomHit) (dur : Rat)
            (loc : GeoLocation),
          (∀ h2 ∈ hits, inRange h2.lon h2.lat) →
          (geocode_nominatim pn last t (.response ok (some hits)) dur).result
              = .ok (some loc) →
          inRange loc.coordinates.1 loc.coordinates.2) := by
  constructor
  · intro rows name loc hrows h
    obtain ⟨-, -, r, hr, -, -, hco⟩ := lookup_curated_contract.1 rows name loc h
    rw [hco]
    exact hrows r hr
  · intro pn last t ok hits dur loc hhits h
    rw [geocode_nominatim] at h
    by_cases hname : pyStrip (pyTake 200 pn) = ""
    · rw [if_pos hname] at h
      cases h
    · rw [if_neg hname] at h
      cases ok with
      | false => simp only [Bool.false_eq_true, if_false] at h; cases h
      | true =>
          cases hits with
          | nil => simp only [if_true] at h; cases h
          | cons hit rest =>
              simp only [if_true] at h
              injection h with h
              injection h with h
              rw [← h]
              exact hhits hit (by simp)

theorem resolved_bounds_amended_witness :
    inRange constantinopleLoc.coordinates.1 constantinopleLoc.coordinates.2 :=
  resolved_bounds_amended.1 specRows "Constantinople" constantinopleLoc
    (by intro r hr; rcases List.mem_singleton.1 hr with rfl; exact
      ⟨by norm_num, by norm_num, by norm_num, by norm_num⟩)
    lookup_curated_contract.2

/-! Claims C3, C5 and C8: aggregator lemmas. -/

/-- Place of an external geocoder call effect. -/
def nomPlaceOf : Effect → Option String
  | .nominatimCall p => some p
  | _ => none

theorem filterMap_nomPlace_extracts (l : List WikipediaEvent) :
    (l.map (fun we => Effect.extractCall (combined we))).filterMap nomPlaceOf = [] := by
  induction l with
  | nil => rfl
  | cons we rest ih => simp [nomPlaceOf, ih]

theorem filterMap_nomPlace_queue (q : List String) :
    (q.map Effect.nominatimCall).filterMap nomPlaceOf = q := by
  induction q with
  | nil => rfl
  | cons p rest ih => simp [nomPlaceOf, ih]

theorem assemble_length (key : String) (env : Env) (geo : List (String × Option GeoLocation)) :
    ∀ (pairs : List (WikipediaEvent × Option String)) (idN : Nat),
      (assemble key env geo idN pairs).1.length
        = pairs.countP (fun wp => (wp.2.bind (fun p => locFor geo p)).isSome) := by
  intro pairs
  induction pairs with
  | nil => intro idN; simp [assemble]
  | cons wp rest ih =>
      intro idN
      obtain ⟨we, pOpt⟩ := wp
      cases pOpt with
      | none => rw [assemble]; simp [List.countP_cons, ih]
      | some p =>
          cases hl : locFor geo p with
          | none => rw [assemble, hl]; simp [List.countP_cons, hl, ih]
          | some loc => rw [assemble, hl]; simp [List.countP_cons, hl, ih]

theorem assemble_mem (key : String) (env : Env) (geo : List (String × Option GeoLocation)) :
    ∀ (pairs : List (WikipediaEvent × Option String)) (idN : Nat) (e : HistoricalEvent),
      e ∈ (assemble key env geo idN pairs).1 →
        ∃ we pn, (we, some pn) ∈ pairs ∧ locFor geo pn = some e.location
          ∧ e.year = we.year ∧ e.title = we.title := by
  intro pairs
  induction pairs with
  | nil => intro idN e he; simp [assemble] at he
  | cons wp rest ih =>
      intro idN e he
      obtain ⟨we, pOpt⟩ := wp
      cases pOpt with
      | none =>
          rw [assemble] at he
          obtain ⟨we2, pn, hmem, h⟩ := ih idN e he
          exact ⟨we2, pn, List.mem_cons_of_mem _ hmem, h⟩
      | some p =>
          cases hl : locFor geo p with
          | none =>
              rw [assemble, hl] at he
              obtain ⟨we2, pn, hmem, h⟩ := ih idN e he
              exact ⟨we2, pn, List.mem_cons_of_mem _ hmem, h⟩
          | some loc =>
              rw [assemble, hl] at he
              rcases List.mem_cons.1 he with rfl | he2
              · exact ⟨we, p, List.mem_cons_self _ _, hl, rfl, rfl⟩
              · obtain ⟨we2, pn, hmem, h⟩ := ih (idN + 1) e he2
                exact ⟨we2, pn, List.mem_cons_of_mem _ hmem, h⟩

/-- C3: within one aggregation call, the external geocoder is invoked at
most once per distinct place name: the places of the Nominatim call effects
in the trace are pairwise distinct, and each is one of the distinct
extracted place names of the batch. -/
theorem nominatim_calls_deduped (env : Env) (s : AggState) (month day : Nat) :
    (((get_events_for_date env s month day).2.2).filterMap nomPlaceOf).Nodup
      ∧ ∀ p ∈ ((get_events_for_date env s month day).2.2).filterMap nomPlaceOf,
          p ∈ uniquePlacesOf env (env.fetch month day) := by
  rw [get_events_for_date]
  cases hdg : dget s.events_cache (dateKey month day) with
  | some evs => simp
  | none =>
      by_cases hempty : (env.fetch month day).isEmpty
      · simp [hempty, nomPlaceOf]
      · simp only [hempty, if_false, Bool.false_eq_true]
        have htrace :
            ((Effect.fetchCall month day
                :: ((env.fetch month day).map (fun we => Effect.extractCall (combined we))
                    ++ (nomQueueOf env s (env.fetch month day)).map Effect.nominatimCall))).filterMap
                nomPlaceOf
              = nomQueueOf env s (env.fetch month day) := by
          rw [List.filterMap_cons]
          simp only [nomPlaceOf]
          rw [List.filterMap_append, filterMap_nomPlace_extracts, filterMap_nomPlace_queue,
            List.nil_append]
        simp only [List.cons_append, List.singleton_append, List.nil_append,
          List.append_assoc] at htrace ⊢
        rw [htrace]
        have hsub := resolvePlan_queue_sublist s.nominatim_cache env.rows
          (uniquePlacesOf env (env.fetch month day))
        have hnd : (uniquePlacesOf env (env.fetch month day)).Nodup :=
          nodup_dedupBy_id _
        exact ⟨hsub.nodup hnd, fun p hp => hsub.subset hp⟩

/-- C5: on a cold date key, every returned event carries the GeoLocation its
place resolved to; the output count never exceeds the raw fetch count and
equals the number of raw events whose extraction and resolution both
succeeded, so every dropped event is attributable to an extraction or
resolution failure. -/
theorem output_bound_and_located (env : Env) (s : AggState) (month day : Nat)
    (hcold : dget s.events_cache (dateKey month day) = none) :
    (get_events_for_date env s month day).1.length ≤ (env.fetch month day).length
      ∧ (get_events_for_date env s month day).1.length
          = (env.fetch month day).countP
              (fun we => ((env.extract (combined we)).bind
                  (fun p => locFor (geoResultsFor env s (env.fetch month day)) p)).isSome)
      ∧ ∀ e ∈ (get_events_for_date env s month day).1,
          ∃ we ∈ env.fetch month day, ∃ pn, env.extract (combined we) = some pn
            ∧ locFor (geoResultsFor env s (env.fetch month day)) pn = some e.location
            ∧ e.year = we.year ∧ e.title = we.title := by
  simp only [get_events_for_date, hcold]
  by_cases hempty : (env.fetch month day).isEmpty
  · have hnil : env.fetch month day = [] := List.isEmpty_iff.1 hempty
    simp [hempty, hnil]
  · simp only [hempty, Bool.false_eq_true, if_false]
    have hlen := assemble_length (dateKey month day) env
      (geoResultsFor env s (env.fetch month day))
      ((env.fetch month day).map (fun we => (we, env.extract (combined we)))) s.nextId
    refine ⟨?_, ?_, ?_⟩
    · rw [hlen, List.countP_map]
      exact le_trans (List.countP_le_length _) (by simp)
    · rw [hlen, List.countP_map]
      rfl
    · intro e he
      obtain ⟨we, pn, hmem, hloc, hyear, htitle⟩ :=
        assemble_mem (dateKey month day) env
          (geoResultsFor env s (env.fetch month day))
          ((env.fetch month day).map (fun we => (we, env.extract (combined we))))
          s.nextId e he
      obtain ⟨we2, hwe2, heq⟩ := List.mem_map.1 hmem
      have hwe : we2 = we := congrArg Prod.fst heq
      subst hwe
      have hext : env.extract (combined we2) = some pn := congrArg Prod.snd heq
      exact ⟨we2, hwe2, pn, hext, hloc, hyear, htitle⟩

/-- Raw event whose text extracts a place. -/
def weRome : WikipediaEvent :=
  { text := "a battle near Rome", year := 100, title := "Legions" }

/-- Raw event with no extraction candidate. -/
def weNowhere : WikipediaEvent :=
  { text := "nothing to see", year := 200, title := "Quiet" }

/-- Concrete environment: two fetched events, of which one extracts Rome and
resolves through the curated table, the other has no candidate. -/
def env0 : Env :=
  { fetch := fun _ _ => [weRome, weNowhere],
    extract := fun t => if t = combined weRome then some "Rome" else none,
    nominatim := fun _ => none,
    rows := [{ historical_name := "Rome", modern_name := "Rome", lat := 42, lng := 12 }],
    nowIso := "2026-01-01T00:00:00Z" }

theorem output_bound_and_located_witness :
    dget (AggState.events_cache {}) (dateKey 7 4) = none
      ∧ (get_events_for_date env0 {} 7 4).1.length = 1
      ∧ (get_events_for_date env0 {} 7 4).1.length ≤ (env0.fetch 7 4).length := by
  refine ⟨rfl, by decide, (output_bound_and_located env0 {} 7 4 rfl).1⟩

/-- A aggregation call with a warm date key returns the cached list, leaves
the state unchanged and performs no effects. -/
theorem cache_hit_pure (env : Env) (s : AggState) (month day : Nat)
    (evs : List HistoricalEvent)
    (h : dget s.events_cache (dateKey month day) = some evs) :
    get_events_for_date env s month day = (evs, s, []) := by
  simp only [get_events_for_date, h]

/-- Every aggregation call leaves its date key mapped to the list it
returned (write-through also for the empty fetch). -/
theorem cache_entry_after (env : Env) (s : AggState) (month day : Nat) :
    dget ((get_events_for_date env s month day).2.1).events_cache (dateKey month day)
      = some (get_events_for_date env s month day).1 := by
  rw [get_events_for_date]
  cases hdg : dget s.events_cache (dateKey month day) with
  | some evs => simpa using hdg
  | none =>
      by_cases hempty : (env.fetch month day).isEmpty
      · simp [hempty, dget_dset_self]
      · simp [hempty, dget_dset_self]

/-- Aggregation calls never remove or replace existing date-cache entries. -/
theorem cache_preserved (env : Env) (s : AggState) (m d : Nat) (k : String)
    (v : List HistoricalEvent) (h : dget s.events_cache k = some v) :
    dget ((get_events_for_date env s m d).2.1).events_cache k = some v := by
  rw [get_events_for_date]
  cases hdg : dget s.events_cache (dateKey m d) with
  | some evs => simpa using h
  | none =>
      have hne : dateKey m d ≠ k := fun he => by rw [he, h] at hdg; cases hdg
      by_cases hempty : (env.fetch m d).isEmpty
      · simp only [hempty, if_true]
        rw [dget_dset_of_ne s.events_cache k (dateKey m d) [] hne]
        exact h
      · simp only [hempty, Bool.false_eq_true, if_false]
        rw [dget_dset_of_ne s.events_cache k (dateKey m d) _ hne]
        exact h

/-- Interleaved aggregation work between two calls: any sequence of calls on
any dates under any environments, with no clear_cache. -/
def runAgg (s : AggState) : List (Env × Nat × Nat) → AggState
  | [] => s
  | op :: rest => runAgg ((get_events_for_date op.1 s op.2.1 op.2.2).2.1) rest

theorem runAgg_preserves (k : String) (v : List HistoricalEvent) :
    ∀ (ops : List (Env × Nat × Nat)) (s : AggState),
      dget s.events_cache k = some v → dget (runAgg s ops).events_cache k = some v := by
  intro ops
  induction ops with
  | nil => intro s h; exact h
  | cons op rest ih => intro s h; exact ih _ (cache_preserved _ _ _ _ _ _ h)

/-- C8: after a first call for (month, day), any later call for the same
date, with arbitrary aggregation calls in between and under any environment,
returns the identical event list (hence identical ids), changes nothing and
performs no fetch, extraction or resolution effects. -/
theorem date_cache_idempotent (env env2 : Env) (s : AggState) (month day : Nat)
    (ops : List (Env × Nat × Nat)) :
    get_events_for_date env2 (runAgg ((get_events_for_date env s month day).2.1) ops) month day
      = ((get_events_for_date env s month day).1,
         runAgg ((get_events_for_date env s month day).2.1) ops, []) :=
  cache_hit_pure _ _ _ _ _ (runAgg_preserves _ _ ops _ (cache_entry_after env s month day))

end ChronoAtlas
